import Mathlib

/-
Verification of the object converter (QJsonObjectConverter) of the
QtJsonSerializer framework.  The repository ships only the converter's
header (src/jsonserializer/typeconverters/qjsonobjectconverter_p.h),
which declares `canConvert`, `jsonTypes`, `serialize`, `deserialize`
and the two wrapper-name patterns `sharedTypeRegex` / `trackingTypeRegex`.
The behaviour of those operations is reconstructed here from the
design document (spec.md); every definition whose body is not visible
in the repository carries a doc comment starting with
"Modelled from the spec:".
-/

set_option autoImplicit false

/-- JSON values: the ordered-object model used by the converter
(`JsonObjectValue` of the spec is an ordered mapping with unique keys,
represented here as a list of key/value pairs in emission order). -/
inductive JsonValue where
  | null
  | bool (b : Bool)
  | num (n : Int)
  | str (s : String)
  | arr (xs : List JsonValue)
  | obj (fields : List (String × JsonValue))
  deriving Repr

/-- The kinds of JSON values (mirrors `QJsonValue::Type`, the element
type of the list returned by `jsonTypes`). -/
inductive JsonKind where
  | null
  | bool
  | num
  | str
  | arr
  | obj
  deriving Repr, DecidableEq

/-- Property payloads: the opaque, statically-untyped values carried
across the conversion boundary for individual properties (the spec's
`GenericValueBox` content as seen by this converter; nested structure is
the outer serializer's business and is opaque here). -/
inductive Value where
  | vNull
  | vBool (b : Bool)
  | vInt (n : Int)
  | vStr (s : String)
  deriving Repr, DecidableEq

/-- A reflectable object instance: its exact runtime type id and its
current property values, keyed by property name. -/
structure Object where
  typeId : Nat
  props : List (String × Value)
  deriving Repr, DecidableEq

/-- A boxed value handed to / produced by the converter (the spec's
`BoxedValue`): either a plain object pointer, a shared-ownership
wrapper, or a tracking/weak wrapper; each may hold no object. -/
inductive Boxed where
  | objPtr (o : Option Object)
  | shared (o : Option Object)
  | tracking (o : Option Object)
  deriving Repr, DecidableEq

/-- One declared property of a reflectable type: name, runtime type id
of its value, and the gettable/settable flags. -/
structure PropMeta where
  name : String
  typeId : Nat
  readable : Bool
  settable : Bool
  deriving Repr, DecidableEq

/-- The metadata record of one reflectable type (the spec's
`TypeMetadataRecord`): registered name, superclass link, declared
properties in declaration order, whether the type permits runtime
subtyping (non-final), and whether a default instance can be
constructed. -/
structure MetaRecord where
  typeName : String
  parent : Option Nat
  props : List PropMeta
  isPoly : Bool
  constructible : Bool
  deriving Repr, DecidableEq

/-- The reflection registry (the spec's `TypeMetadataOracle` state):
`names` maps every runtime type id to its textual type name(s), `metas`
maps the ids of reflectable object types to their metadata records. -/
structure Registry where
  names : List (Nat × String)
  metas : List (Nat × MetaRecord)
  deriving Repr, DecidableEq

/-- Converter configuration: whether strict mode (unknown JSON keys are
errors) was requested. -/
structure Config where
  strictMode : Bool
  deriving Repr, DecidableEq

/-- The recursive helper handed in by the outer serializer
(`SerializationHelper` in the header): converts individual property
values, opaque to this converter. -/
structure SerializationHelper where
  serializeValue : Nat → Value → Option JsonValue
  deserializeValue : Nat → JsonValue → Option Value

/-- The error kinds of the conversion (spec §7). -/
inductive ConvError where
  | shapeMismatch
  | unknownDiscriminatorType
  | constructionFailed
  | unknownProperty
  | propertyConversionFailed (name : String)
  deriving Repr, DecidableEq

/-- Classification of a runtime type name against the wrapper patterns
(the spec's `WrapperClassification`). -/
inductive WrapperClassification where
  | notAWrapper
  | sharedOwnership (inner : Nat)
  | trackingReference (inner : Nat)
  deriving Repr, DecidableEq

/-- First value stored under a `Nat` key in an association list. -/
def lookupNat {α : Type} : List (Nat × α) → Nat → Option α
  | [], _ => none
  | (k, v) :: rest, n => if k = n then some v else lookupNat rest n

/-- First value stored under a `String` key in an association list. -/
def lookupStr {α : Type} : List (String × α) → String → Option α
  | [], _ => none
  | (k, v) :: rest, n => if k = n then some v else lookupStr rest n

/-- Replace the value under a key, or append the binding if absent. -/
def setKey {α : Type} : List (String × α) → String → α → List (String × α)
  | [], n, v => [(n, v)]
  | (k, w) :: rest, n, v => if k = n then (n, v) :: rest else (k, w) :: setKey rest n v

/-- The metadata record of a runtime type id, if it is a reflectable
object type (`oracle.metadataFor`). -/
def metadataFor (reg : Registry) (t : Nat) : Option MetaRecord :=
  lookupNat reg.metas t

/-- The textual name of a runtime type id, as the reflection system
reports it (unknown ids report the empty name). -/
def typeNameOf (reg : Registry) (t : Nat) : String :=
  (lookupNat reg.names t).getD ""

/-- The runtime type id registered under a textual type name, used to
resolve the inner type captured by a wrapper pattern. -/
def idByName (reg : Registry) (s : String) : Option Nat :=
  idByNameIn reg.names s
where
  idByNameIn : List (Nat × String) → String → Option Nat
  | [], _ => none
  | (k, n) :: rest, s => if n = s then some k else idByNameIn rest s

/-- The runtime type id whose metadata record is registered under a
given name (`oracle.metadataByName`), used to resolve a discriminator. -/
def idByMetaName (reg : Registry) (s : String) : Option Nat :=
  idByMetaNameIn reg.metas s
where
  idByMetaNameIn : List (Nat × MetaRecord) → String → Option Nat
  | [], _ => none
  | (k, r) :: rest, s => if r.typeName = s then some k else idByMetaNameIn rest s

/-- The ids that have a registered type name. -/
def keysOf (reg : Registry) : List Nat :=
  reg.names.map Prod.fst

/-- Modelled from the spec: the structural wrapper-name pattern match
(the header's regular expressions, §4.1): the name must start with the
wrapper's generic-prefix and end in the closing angle bracket; the
captured middle part is the inner type name. -/
def matchWrapperPattern (pat : String) (name : String) : Option String :=
  let pl := pat.toList
  let nl := name.toList
  if pl.isPrefixOf nl && decide (pl.length < nl.length) && (nl.getLast? == some '>') then
    some (String.mk ((nl.drop pl.length).dropLast))
  else none

/-- Modelled from the spec: the fixed pattern identifying a
shared-ownership wrapper type name (the header's `sharedTypeRegex`). -/
def sharedTypeRegex : String := "QSharedPointer<"

/-- Modelled from the spec: the fixed pattern identifying a
tracking/weak-reference wrapper type name (the header's
`trackingTypeRegex`). -/
def trackingTypeRegex : String := "QPointer<"

/-- Modelled from the spec: `WrapperPatternMatcher.classify` (§4.1) —
match the two wrapper patterns against a type name; on a match, resolve
the captured inner type name through the oracle; a failed inner lookup
is `notAWrapper`, never an error. -/
def classify (reg : Registry) (name : String) : WrapperClassification :=
  match matchWrapperPattern sharedTypeRegex name with
  | some inner =>
    match idByName reg inner with
    | some t => .sharedOwnership t
    | none => .notAWrapper
  | none =>
    match matchWrapperPattern trackingTypeRegex name with
    | some inner =>
      match idByName reg inner with
      | some t => .trackingReference t
      | none => .notAWrapper
    | none => .notAWrapper

/-- Classification of a runtime type id through its registered name. -/
def classifyId (reg : Registry) (t : Nat) : WrapperClassification :=
  classify reg (typeNameOf reg t)

/-- Is the id directly known to the oracle as a reflectable object
type? -/
def isObjType (reg : Registry) (t : Nat) : Bool :=
  (metadataFor reg t).isSome

/-- The wrapper-step function: the inner type id of a wrapper-classified
id, if any. -/
def wstep (reg : Registry) (t : Nat) : Option Nat :=
  match classifyId reg t with
  | .sharedOwnership u => some u
  | .trackingReference u => some u
  | .notAWrapper => none

/-- Modelled from the spec: the recursive applicability test behind
`canConvert` (§4.3) — a type is convertible when it is directly known
as an object type, or when it is a wrapper whose inner type is
convertible; a visited-set of type ids cuts self-referential wrapper
chains.  The fuel argument only makes the recursion structural; the
visited-set alone bounds the depth (proved below). -/
def canConvertAux (reg : Registry) : Nat → Nat → List Nat → Bool
  | 0, _, _ => false
  | fuel + 1, t, visited =>
    if t ∈ visited then false
    else if isObjType reg t then true
    else
      match wstep reg t with
      | some u => canConvertAux reg fuel u (t :: visited)
      | none => false

/-- Fuel that provably suffices for `canConvertAux`: one more than the
number of distinct registered type ids. -/
def defaultFuel (reg : Registry) : Nat :=
  (keysOf reg).dedup.length + 1

/-- `QJsonObjectConverter::canConvert` (header line 10).  Modelled from
the spec: §4.3. -/
def canConvert (reg : Registry) (t : Nat) : Bool :=
  canConvertAux reg (defaultFuel reg) t []

/-- The spec's wording of convertibility (§4.3), as an inductive
predicate: directly known as an object type, or a wrapper whose inner
type is itself convertible, recursively through nested wrappers. -/
inductive Convertible (reg : Registry) : Nat → Prop where
  | direct (t : Nat) : isObjType reg t = true → Convertible reg t
  | viaShared (t u : Nat) :
      classifyId reg t = .sharedOwnership u → Convertible reg u → Convertible reg t
  | viaTracking (t u : Nat) :
      classifyId reg t = .trackingReference u → Convertible reg u → Convertible reg t

/-- `l` is the (unique, minimal) successful wrapper chain starting at
`t`: all nodes before the last are non-object wrapper ids, each stepping
to the next, and the last is an object type. -/
def ConvChain (reg : Registry) : Nat → List Nat → Prop
  | _, [] => False
  | t, [a] => a = t ∧ isObjType reg a = true
  | t, a :: b :: rest =>
      a = t ∧ isObjType reg a = false ∧ wstep reg a = some b ∧ ConvChain reg b (b :: rest)

/-- The ancestry chain of a type id: the id followed by its superclass
chain, read from the metadata records (fuel-bounded by the registry
size; a well-formed registry's chains are shorter). -/
def ancestryAux (reg : Registry) : Nat → Nat → List Nat
  | 0, _ => []
  | fuel + 1, t =>
    t :: (match metadataFor reg t with
      | some r =>
        match r.parent with
        | some q => ancestryAux reg fuel q
        | none => []
      | none => [])

/-- The ancestry of `t`: `t` itself followed by its superclasses. -/
def ancestry (reg : Registry) (t : Nat) : List Nat :=
  ancestryAux reg (reg.metas.length + 1) t

/-- Does the ancestry of `d` contain `anc` (is `d` equal to `anc` or a
descendant of it)? -/
def inAncestry (reg : Registry) (anc d : Nat) : Bool :=
  decide (anc ∈ ancestry reg d)

/-- The declared properties of one record (empty for ids without
metadata). -/
def recPropsOf (reg : Registry) (t : Nat) : List PropMeta :=
  ((metadataFor reg t).map MetaRecord.props).getD []

/-- The derived-first property walk: the properties of `t`'s record
followed by those of its ancestors, each in declaration order
(spec §4.4 step 4). -/
def chainProps (reg : Registry) (t : Nat) : List PropMeta :=
  ((ancestry reg t).map (recPropsOf reg)).flatten

/-- The registered name of a type id (used as the discriminator
value). -/
def registeredName (reg : Registry) (t : Nat) : String :=
  ((metadataFor reg t).map MetaRecord.typeName).getD ""

/-- Modelled from the spec: the reserved discriminator key of the wire
format (§6, "a fixed, documented key name, e.g. `@type`"). -/
def discriminatorKey : String := "@type"

/-- Modelled from the spec: `PolymorphismResolver.resolveForSerialize`
(§4.2) — a final (non-polymorphic) static record is used directly;
otherwise the instance's exact record is used when it descends from the
static one, and the static record otherwise. -/
def resolveForSerialize (reg : Registry) (sId : Nat) (o : Object) : Nat :=
  match metadataFor reg sId with
  | none => sId
  | some r =>
    if r.isPoly then
      if inAncestry reg sId o.typeId then o.typeId else sId
    else sId

/-- The static target type of a conversion request: the inner type for
wrapper-classified ids, the id itself otherwise. -/
def staticTarget (reg : Registry) (t : Nat) : Nat :=
  match classifyId reg t with
  | .sharedOwnership i => i
  | .trackingReference i => i
  | .notAWrapper => t

/-- Keep, for every property name, only its first occurrence in the
walk (first-seen-wins during the derived-to-base walk, spec §4.4). -/
def firstOccAux : List PropMeta → List String → List PropMeta
  | [], _ => []
  | p :: ps, seen =>
    if p.name ∈ seen then firstOccAux ps seen
    else p :: firstOccAux ps (p.name :: seen)

/-- The properties actually written for a resolved record: the readable
properties of the derived-first walk, first occurrence of each name
only. -/
def serProps (reg : Registry) (rid : Nat) : List PropMeta :=
  firstOccAux ((chainProps reg rid).filter PropMeta.readable) []

/-- The current value of a named property of an instance (absent
properties read as the null value). -/
def getProp (o : Object) (n : String) : Value :=
  (lookupStr o.props n).getD .vNull

/-- Serialize each walked property through the outer serializer's
helper; a failing property aborts the walk (spec §4.4 step 4, §7). -/
def walkFields (helper : SerializationHelper) (o : Object) :
    List PropMeta → Except ConvError (List (String × JsonValue))
  | [] => .ok []
  | p :: ps =>
    match helper.serializeValue p.typeId (getProp o p.name) with
    | some jv =>
      match walkFields helper o ps with
      | .ok fs => .ok ((p.name, jv) :: fs)
      | .error e => .error e
    | none => .error (.propertyConversionFailed p.name)

/-- Modelled from the spec: the unwrap step of `serialize` (§4.4
step 1) — a wrapper-classified id must be boxed as the matching wrapper
kind and yields its held object (possibly none); a plain id yields the
plain object pointer. -/
def unwrap (reg : Registry) (t : Nat) (box : Boxed) : Except ConvError (Option Object) :=
  match classifyId reg t, box with
  | .sharedOwnership _, .shared o => .ok o
  | .trackingReference _, .tracking o => .ok o
  | .notAWrapper, .objPtr o => .ok o
  | _, _ => .error .shapeMismatch

/-- `QJsonObjectConverter::serialize` (header line 12).  Modelled from
the spec: §4.4 — unwrap, resolve the record polymorphically, emit the
discriminator first when true polymorphism occurred, then the
derived-first property walk. -/
def serialize (reg : Registry) (t : Nat) (box : Boxed) (helper : SerializationHelper) :
    Except ConvError JsonValue :=
  match unwrap reg t box with
  | .error e => .error e
  | .ok none => .ok .null
  | .ok (some o) =>
    let sId := staticTarget reg t
    let rid := resolveForSerialize reg sId o
    match walkFields helper o (serProps reg rid) with
    | .error e => .error e
    | .ok fs =>
      if rid = sId then .ok (.obj fs)
      else .ok (.obj ((discriminatorKey, .str (registeredName reg rid)) :: fs))

/-- Modelled from the spec: the key order promised by §4.4 step 5 — the
discriminator first when present, then the property names in the
derived-first walk order. -/
def serKeyOrder (reg : Registry) (t : Nat) (box : Boxed) : List String :=
  match unwrap reg t box with
  | .ok (some o) =>
    let sId := staticTarget reg t
    let rid := resolveForSerialize reg sId o
    if rid = sId then (serProps reg rid).map PropMeta.name
    else discriminatorKey :: (serProps reg rid).map PropMeta.name
  | _ => []

/-- `QJsonObjectConverter::jsonTypes` (header line 11).  Modelled from
the spec: §4.3 `acceptedJsonShapes() -> {JSON object}`; the
wrapper-only acceptance of `null` is not part of the declared set. -/
def jsonTypes : List JsonKind := [JsonKind.obj]

/-- First property of a given name in a walk. -/
def findNamed : List PropMeta → String → Option PropMeta
  | [], _ => none
  | p :: ps, n => if p.name = n then some p else findNamed ps n

/-- First settable property of a given name in a walk. -/
def findSettableIn : List PropMeta → String → Option PropMeta
  | [], _ => none
  | p :: ps, n => if p.name = n ∧ p.settable then some p else findSettableIn ps n

/-- The settable property a JSON key is matched against: the first
settable property of that name on the target's derived-first metadata
chain (spec §4.5 step 5). -/
def findSettable (reg : Registry) (target : Nat) (n : String) : Option PropMeta :=
  findSettableIn (chainProps reg target) n

/-- Modelled from the spec: `oracle.construct` (§4.5 step 4) — a
default instance of the target type, owned by the parent context; fails
for unknown or non-constructible types. -/
def construct (reg : Registry) (t : Nat) (_parentCtx : Option Nat) : Option Object :=
  match metadataFor reg t with
  | some r => if r.constructible then some { typeId := t, props := [] } else none
  | none => none

/-- Modelled from the spec: discriminator resolution (§4.5 step 3,
§4.2) — no discriminator targets the static record; a discriminator
must name a registered type whose ancestry includes the static type,
anything else is invalid. -/
def resolveTarget (reg : Registry) (sId : Nat) : Option JsonValue → Option Nat
  | none => some sId
  | some (.str s) =>
    match idByMetaName reg s with
    | some d => if inAncestry reg sId d then some d else none
    | none => none
  | some _ => none

/-- Modelled from the spec: the per-key assignment loop of
`deserialize` (§4.5 step 5) — the discriminator key is skipped; a key
matching a settable chain property is converted through the helper and
assigned (a helper failure aborts the call); an unmatched key is
ignored, unless strict mode makes it an `unknownProperty` error. -/
def applyProps (reg : Registry) (cfg : Config) (helper : SerializationHelper)
    (target : Nat) : Object → List (String × JsonValue) → Except ConvError Object
  | o, [] => .ok o
  | o, (k, jv) :: rest =>
    if k = discriminatorKey then applyProps reg cfg helper target o rest
    else
      match findSettable reg target k with
      | some p =>
        match helper.deserializeValue p.typeId jv with
        | some v => applyProps reg cfg helper target { o with props := setKey o.props k v } rest
        | none => .error (.propertyConversionFailed k)
      | none =>
        if cfg.strictMode then .error .unknownProperty
        else applyProps reg cfg helper target o rest

/-- Re-box the constructed object the way the requested type id was
boxed (§4.5 step 6). -/
def rewrap : WrapperClassification → Object → Boxed
  | .sharedOwnership _, o => .shared (some o)
  | .trackingReference _, o => .tracking (some o)
  | .notAWrapper, o => .objPtr (some o)

/-- Modelled from the spec: `QJsonObjectConverter::deserialize` (header
line 13, spec §4.5), instrumented with the list of type ids for which
an instance was actually constructed (second component), so that
"fails before constructing anything" is a provable statement. -/
def deserializeCore (reg : Registry) (cfg : Config) (t : Nat) (json : JsonValue)
    (parentCtx : Option Nat) (helper : SerializationHelper) :
    Except ConvError Boxed × List Nat :=
  match json with
  | .null =>
    match classifyId reg t with
    | .sharedOwnership _ => (.ok (.shared none), [])
    | .trackingReference _ => (.ok (.tracking none), [])
    | .notAWrapper => (.error .shapeMismatch, [])
  | .obj fields =>
    match resolveTarget reg (staticTarget reg t) (lookupStr fields discriminatorKey) with
    | none => (.error .unknownDiscriminatorType, [])
    | some target =>
      match construct reg target parentCtx with
      | none => (.error .constructionFailed, [])
      | some o0 =>
        match applyProps reg cfg helper target o0 fields with
        | .error e => (.error e, [target])
        | .ok o => (.ok (rewrap (classifyId reg t) o), [target])
  | _ => (.error .shapeMismatch, [])

/-- `QJsonObjectConverter::deserialize` (header line 13): the returned
boxed value, without the construction trace. -/
def deserialize (reg : Registry) (cfg : Config) (t : Nat) (json : JsonValue)
    (parentCtx : Option Nat) (helper : SerializationHelper) : Except ConvError Boxed :=
  (deserializeCore reg cfg t json parentCtx helper).fst

/-- Is the JSON value an object? -/
def isJsonObj : JsonValue → Bool
  | .obj _ => true
  | _ => false

/-- The helper round-trips a given value at a given property type. -/
def roundTrips (helper : SerializationHelper) (tid : Nat) (v : Value) : Prop :=
  match helper.serializeValue tid v with
  | some jv => helper.deserializeValue tid jv = some v
  | none => False

/-- A small concrete registry: the reflectable type Foo (id 6) with one
int-typed property, its shared-ownership wrapper (id 5) and its
tracking wrapper (id 7). -/
def regW : Registry :=
  { names := [(5, "QSharedPointer<Foo>"), (6, "Foo"), (7, "QPointer<Foo>")],
    metas := [(6, { typeName := "Foo", parent := none,
                    props := [{ name := "knownProp", typeId := 100,
                                readable := true, settable := true }],
                    isPoly := false, constructible := true })] }

/-- A concrete registry with a polymorphic base B (id 10), a derived D
(id 11) adding one property, and an unrelated type Evil (id 12). -/
def regP : Registry :=
  { names := [(10, "B"), (11, "D"), (12, "Evil")],
    metas := [(10, { typeName := "B", parent := none,
                     props := [{ name := "a", typeId := 100,
                                 readable := true, settable := true }],
                     isPoly := true, constructible := true }),
              (11, { typeName := "D", parent := some 10,
                     props := [{ name := "b", typeId := 100,
                                 readable := true, settable := true }],
                     isPoly := true, constructible := true }),
              (12, { typeName := "Evil", parent := none,
                     props := [], isPoly := true, constructible := true })] }

/-- A pathological registry: id 1 is registered both under the plain
name "A" and under a shared-wrapper name around "A", so the
wrapper chain of id 1 steps back to id 1 itself. -/
def regLoop : Registry :=
  { names := [(1, "QSharedPointer<A>"), (1, "A")], metas := [] }

/-- A concrete helper converting int payloads to JSON numbers. -/
def intHelper : SerializationHelper :=
  { serializeValue := fun _ v => match v with | .vInt n => some (.num n) | _ => none,
    deserializeValue := fun _ j => match j with | .num n => some (.vInt n) | _ => none }

/-- Non-strict configuration. -/
def cfgLoose : Config := ⟨false⟩

/-- A concrete Foo instance. -/
def fooObj : Object := { typeId := 6, props := [("knownProp", .vInt 5)] }

/-- A concrete D instance seen through static type B. -/
def dObj : Object := { typeId := 11, props := [("a", .vInt 1), ("b", .vInt 2)] }

/-- A concrete registry where derived and base share a property name:
Base (id 20) declares p and q, Derived (id 21) redeclares p. -/
def regC : Registry :=
  { names := [(20, "Base"), (21, "Derived")],
    metas := [(20, { typeName := "Base", parent := none,
                     props := [{ name := "p", typeId := 100, readable := true, settable := true },
                               { name := "q", typeId := 100, readable := true, settable := true }],
                     isPoly := true, constructible := true }),
              (21, { typeName := "Derived", parent := some 20,
                     props := [{ name := "p", typeId := 200, readable := true, settable := true }],
                     isPoly := true, constructible := true })] }

/-- A concrete Derived instance seen through static type Base. -/
def cObj : Object := { typeId := 21, props := [("p", .vInt 7), ("q", .vInt 8)] }

/-! ### Association-list lemmas -/

theorem lookupStr_eq_none_iff {α : Type} (l : List (String × α)) (n : String) :
    lookupStr l n = none ↔ n ∉ l.map Prod.fst := by
  induction l with
  | nil => simp [lookupStr]
  | cons kv rest ih =>
    obtain ⟨k, v⟩ := kv
    by_cases h : k = n
    · subst h
      simp [lookupStr]
    · simp only [lookupStr, h, if_false, List.map_cons, List.mem_cons, ih]
      constructor
      · intro hn
        rintro (he | hm)
        · exact h he.symm
        · exact hn hm
      · intro hor
        exact fun hm => hor (Or.inr hm)

theorem lookupStr_isSome_of_mem {α : Type} (l : List (String × α)) (n : String)
    (h : n ∈ l.map Prod.fst) : ∃ v, lookupStr l n = some v := by
  rcases ho : lookupStr l n with _ | v
  · exact absurd ((lookupStr_eq_none_iff l n).mp ho) (by simp [h])
  · exact ⟨v, rfl⟩

theorem lookupStr_setKey {α : Type} (l : List (String × α)) (k n : String) (v : α) :
    lookupStr (setKey l k v) n = if k = n then some v else lookupStr l n := by
  induction l with
  | nil => simp [setKey, lookupStr]
  | cons kv rest ih =>
    obtain ⟨k0, w⟩ := kv
    by_cases h : k0 = k
    · subst h
      by_cases hn : k0 = n <;> simp [setKey, lookupStr, hn]
    · by_cases hn : k0 = n
      · subst hn
        have hkn : ¬k = k0 := fun he => h he.symm
        simp [setKey, lookupStr, h, hkn]
      · simp [setKey, lookupStr, h, hn, ih]

/-! ### First-occurrence walk lemmas -/

theorem firstOccAux_mem_names (l : List PropMeta) (seen : List String) (n : String) :
    n ∈ (firstOccAux l seen).map PropMeta.name ↔ n ∈ l.map PropMeta.name ∧ n ∉ seen := by
  induction l generalizing seen with
  | nil => simp [firstOccAux]
  | cons p ps ih =>
    by_cases h : p.name ∈ seen
    · simp only [firstOccAux, h, if_true, ih, List.map_cons, List.mem_cons]
      constructor
      · rintro ⟨hm, hs⟩
        exact ⟨Or.inr hm, hs⟩
      · rintro ⟨hm | hm, hs⟩
        · subst hm
          exact absurd h hs
        · exact ⟨hm, hs⟩
    · simp only [firstOccAux, h, if_false, List.map_cons, List.mem_cons, ih]
      constructor
      · rintro (hm | ⟨hm, hs⟩)
        · subst hm
          exact ⟨Or.inl rfl, h⟩
        · exact ⟨Or.inr hm, fun hx => hs (Or.inr hx)⟩
      · rintro ⟨hm | hm, hs⟩
        · exact Or.inl hm
        · by_cases hpn : n = p.name
          · exact Or.inl hpn
          · exact Or.inr ⟨hm, fun hor => hor.elim hpn hs⟩

theorem firstOccAux_nodup (l : List PropMeta) (seen : List String) :
    ((firstOccAux l seen).map PropMeta.name).Nodup := by
  induction l generalizing seen with
  | nil => simp [firstOccAux]
  | cons p ps ih =>
    by_cases h : p.name ∈ seen
    · simpa [firstOccAux, h] using ih seen
    · simp only [firstOccAux, h, if_false, List.map_cons, List.nodup_cons]
      refine ⟨fun hmem => ?_, ih _⟩
      have := (firstOccAux_mem_names ps (p.name :: seen) p.name).mp hmem
      simp at this

theorem firstOccAux_subset (l : List PropMeta) (seen : List String) (p : PropMeta)
    (h : p ∈ firstOccAux l seen) : p ∈ l := by
  induction l generalizing seen with
  | nil => simp [firstOccAux] at h
  | cons q qs ih =>
    by_cases hq : q.name ∈ seen
    · simp only [firstOccAux, hq, if_true] at h
      exact List.mem_cons_of_mem _ (ih _ h)
    · simp only [firstOccAux, hq, if_false, List.mem_cons] at h
      rcases h with h | h
      · exact h ▸ List.mem_cons_self _ _
      · exact List.mem_cons_of_mem _ (ih _ h)

theorem firstOccAux_not_seen (l : List PropMeta) (seen : List String) (p : PropMeta)
    (h : p ∈ firstOccAux l seen) : p.name ∉ seen := by
  have : p.name ∈ (firstOccAux l seen).map PropMeta.name := List.mem_map_of_mem _ h
  exact ((firstOccAux_mem_names l seen p.name).mp this).2

theorem firstOccAux_find (l : List PropMeta) (seen : List String) (p : PropMeta)
    (h : p ∈ firstOccAux l seen) : findNamed l p.name = some p := by
  induction l generalizing seen with
  | nil => simp [firstOccAux] at h
  | cons q qs ih =>
    by_cases hq : q.name ∈ seen
    · simp only [firstOccAux, hq, if_true] at h
      have hne : q.name ≠ p.name := fun he => (firstOccAux_not_seen _ _ _ h) (he ▸ hq)
      simp only [findNamed, hne, if_false]
      exact ih _ h
    · simp only [firstOccAux, hq, if_false, List.mem_cons] at h
      rcases h with h | h
      · subst h
        simp [findNamed]
      · have hns : p.name ∉ q.name :: seen := firstOccAux_not_seen _ _ _ h
        have hne : q.name ≠ p.name := fun he => hns (he ▸ List.mem_cons_self _ _)
        simp only [findNamed, hne, if_false]
        exact ih _ h

/-! ### findNamed and findSettableIn lemmas -/

theorem findNamed_name (l : List PropMeta) (n : String) (p : PropMeta)
    (h : findNamed l n = some p) : p.name = n := by
  induction l with
  | nil => simp [findNamed] at h
  | cons q qs ih =>
    by_cases hq : q.name = n
    · simp only [findNamed, hq, if_true, Option.some.injEq] at h
      exact h ▸ hq
    · simp only [findNamed, hq, if_false] at h
      exact ih h

theorem findNamed_mem (l : List PropMeta) (n : String) (p : PropMeta)
    (h : findNamed l n = some p) : p ∈ l := by
  induction l with
  | nil => simp [findNamed] at h
  | cons q qs ih =>
    by_cases hq : q.name = n
    · simp only [findNamed, hq, if_true, Option.some.injEq] at h
      exact h ▸ List.mem_cons_self _ _
    · simp only [findNamed, hq, if_false] at h
      exact List.mem_cons_of_mem _ (ih h)

theorem findSettableIn_eq_findNamed (l : List PropMeta)
    (hs : ∀ q ∈ l, q.settable = true) (n : String) :
    findSettableIn l n = findNamed l n := by
  induction l with
  | nil => simp [findSettableIn, findNamed]
  | cons q qs ih =>
    have hq := hs q (List.mem_cons_self _ _)
    by_cases hn : q.name = n
    · simp [findSettableIn, findNamed, hn, hq]
    · simp only [findSettableIn, findNamed, hn, hq, false_and, if_false]
      exact ih fun r hr => hs r (List.mem_cons_of_mem _ hr)

/-! ### walkFields lemmas -/

theorem walkFields_ok_of (helper : SerializationHelper) (o : Object) (ps : List PropMeta)
    (h : ∀ p ∈ ps, (helper.serializeValue p.typeId (getProp o p.name)).isSome) :
    ∃ fs, walkFields helper o ps = .ok fs := by
  induction ps with
  | nil => exact ⟨[], rfl⟩
  | cons p rest ih =>
    have hp := h p (List.mem_cons_self _ _)
    rcases hj : helper.serializeValue p.typeId (getProp o p.name) with _ | jv
    · rw [hj] at hp; simp at hp
    · obtain ⟨fs, hfs⟩ := ih fun q hq => h q (List.mem_cons_of_mem _ hq)
      exact ⟨(p.name, jv) :: fs, by simp [walkFields, hj, hfs]⟩

theorem walkFields_keys (helper : SerializationHelper) (o : Object) (ps : List PropMeta)
    (fs : List (String × JsonValue)) (h : walkFields helper o ps = .ok fs) :
    fs.map Prod.fst = ps.map PropMeta.name := by
  induction ps generalizing fs with
  | nil => simp [walkFields] at h; simp [← h]
  | cons p rest ih =>
    rcases hj : helper.serializeValue p.typeId (getProp o p.name) with _ | jv
    · simp [walkFields, hj] at h
    · rcases hw : walkFields helper o rest with e | fs0
      · simp [walkFields, hj, hw] at h
      · simp only [walkFields, hj, hw] at h
        cases h
        simp [ih fs0 hw]

theorem walkFields_lookup (helper : SerializationHelper) (o : Object) (ps : List PropMeta)
    (fs : List (String × JsonValue)) (h : walkFields helper o ps = .ok fs)
    (n : String) (jv : JsonValue) (hl : lookupStr fs n = some jv) :
    ∃ p, findNamed ps n = some p ∧
      helper.serializeValue p.typeId (getProp o p.name) = some jv := by
  induction ps generalizing fs with
  | nil =>
    simp [walkFields] at h
    subst h
    simp [lookupStr] at hl
  | cons p rest ih =>
    rcases hj : helper.serializeValue p.typeId (getProp o p.name) with _ | jv0
    · simp [walkFields, hj] at h
    · rcases hw : walkFields helper o rest with e | fs0
      · simp [walkFields, hj, hw] at h
      · simp only [walkFields, hj, hw] at h
        cases h
        by_cases hn : p.name = n
        · subst hn
          simp only [lookupStr, if_true] at hl
          cases hl
          exact ⟨p, by simp [findNamed], hj⟩
        · simp only [lookupStr, hn, if_false] at hl
          obtain ⟨q, hq1, hq2⟩ := ih fs0 hw hl
          exact ⟨q, by simp [findNamed, hn, hq1], hq2⟩

theorem walkFields_mem (helper : SerializationHelper) (o : Object) (ps : List PropMeta)
    (fs : List (String × JsonValue)) (h : walkFields helper o ps = .ok fs)
    (kv : String × JsonValue) (hm : kv ∈ fs) :
    ∃ p ∈ ps, p.name = kv.1 ∧
      helper.serializeValue p.typeId (getProp o p.name) = some kv.2 := by
  induction ps generalizing fs with
  | nil => simp [walkFields] at h; subst h; simp at hm
  | cons p rest ih =>
    rcases hj : helper.serializeValue p.typeId (getProp o p.name) with _ | jv0
    · simp [walkFields, hj] at h
    · rcases hw : walkFields helper o rest with e | fs0
      · simp [walkFields, hj, hw] at h
      · simp only [walkFields, hj, hw] at h
        cases h
        rcases List.mem_cons.mp hm with hkv | hkv
        · exact ⟨p, List.mem_cons_self _ _, by simp [hkv], by simp [hkv, hj]⟩
        · obtain ⟨q, hq0, hq1, hq2⟩ := ih fs0 hw hkv
          exact ⟨q, List.mem_cons_of_mem _ hq0, hq1, hq2⟩

/-! ### applyProps lemmas -/

theorem applyProps_ok (reg : Registry) (cfg : Config) (helper : SerializationHelper)
    (target : Nat) :
    ∀ (fields : List (String × JsonValue)) (o : Object),
      (∀ kv ∈ fields, kv.1 = discriminatorKey ∨
        ∃ p v, findSettable reg target kv.1 = some p ∧
          helper.deserializeValue p.typeId kv.2 = some v) →
      ∃ o', applyProps reg cfg helper target o fields = .ok o' ∧
        (∀ n, n ∉ fields.map Prod.fst → lookupStr o'.props n = lookupStr o.props n) ∧
        ((fields.map Prod.fst).Nodup →
          ∀ k jv, k ≠ discriminatorKey → lookupStr fields k = some jv →
            ∃ p v, findSettable reg target k = some p ∧
              helper.deserializeValue p.typeId jv = some v ∧
              lookupStr o'.props k = some v) := by
  intro fields
  induction fields with
  | nil =>
    intro o _
    exact ⟨o, rfl, fun n _ => rfl, fun _ k jv _ hl => by simp [lookupStr] at hl⟩
  | cons kv rest ih =>
    intro o hgood
    obtain ⟨k, jv⟩ := kv
    by_cases hd : k = discriminatorKey
    · obtain ⟨o', h1, h2, h3⟩ := ih o (fun kv2 hm => hgood kv2 (List.mem_cons_of_mem _ hm))
      refine ⟨o', by simp [applyProps, hd, h1], ?_, ?_⟩
      · intro n hn
        exact h2 n (fun hm => hn (by simp [hm]))
      · intro hnd k0 jv0 hk0 hl
        have hne : k ≠ k0 := fun he => hk0 (he ▸ hd)
        simp only [lookupStr, hne, if_false] at hl
        exact h3 (by simp at hnd; exact hnd.2) k0 jv0 hk0 hl
    · rcases hgood (k, jv) (List.mem_cons_self _ _) with hdk | ⟨p, v, hp, hv⟩
      · exact absurd hdk hd
      · obtain ⟨o', h1, h2, h3⟩ :=
          ih { o with props := setKey o.props k v }
            (fun kv2 hm => hgood kv2 (List.mem_cons_of_mem _ hm))
      
        refine ⟨o', by simp [applyProps, hd, hp, hv, h1], ?_, ?_⟩
        · intro n hn
          have hn1 : n ∉ rest.map Prod.fst := fun hm => hn (by simp [hm])
          have hn2 : k ≠ n := fun he => hn (by simp [he])
          rw [h2 n hn1]
          simp [lookupStr_setKey, hn2]
        · intro hnd k0 jv0 hk0 hl
          simp only [List.map_cons, List.nodup_cons] at hnd
          by_cases hkk : k = k0
          · subst hkk
            simp only [lookupStr, if_true] at hl
            cases hl
            refine ⟨p, v, hp, hv, ?_⟩
            rw [h2 k hnd.1]
            simp [lookupStr_setKey]
          · simp only [lookupStr, hkk, if_false] at hl
            exact h3 hnd.2 k0 jv0 hk0 hl

theorem applyProps_nonstrict (reg : Registry) (helper : SerializationHelper) (target : Nat) :
    ∀ (fields : List (String × JsonValue)) (o : Object),
      (∀ kv ∈ fields, kv.1 = discriminatorKey ∨ findSettable reg target kv.1 = none ∨
        ∃ p v, findSettable reg target kv.1 = some p ∧
          helper.deserializeValue p.typeId kv.2 = some v) →
      ∃ o', applyProps reg ⟨false⟩ helper target o fields = .ok o' ∧
        ∀ n, findSettable reg target n = none →
          lookupStr o'.props n = lookupStr o.props n := by
  intro fields
  induction fields with
  | nil =>
    intro o _
    exact ⟨o, rfl, fun n _ => rfl⟩
  | cons kv rest ih =>
    intro o hgood
    obtain ⟨k, jv⟩ := kv
    by_cases hd : k = discriminatorKey
    · obtain ⟨o', h1, h2⟩ := ih o (fun kv2 hm => hgood kv2 (List.mem_cons_of_mem _ hm))
      exact ⟨o', by simp [applyProps, hd, h1], h2⟩
    · rcases hf : findSettable reg target k with _ | p
      · obtain ⟨o', h1, h2⟩ := ih o (fun kv2 hm => hgood kv2 (List.mem_cons_of_mem _ hm))
        exact ⟨o', by simp [applyProps, hd, hf, h1], h2⟩
      · rcases hgood (k, jv) (List.mem_cons_self _ _) with hdk | hnone | ⟨p0, v, hp0, hv⟩
        · exact absurd hdk hd
        · rw [hf] at hnone; cases hnone
        · rw [hf] at hp0
          cases hp0
          obtain ⟨o', h1, h2⟩ :=
            ih { o with props := setKey o.props k v }
              (fun kv2 hm => hgood kv2 (List.mem_cons_of_mem _ hm))
          refine ⟨o', by simp [applyProps, hd, hf, hv, h1], ?_⟩
          intro n hn
          have hne : k ≠ n := fun he => by rw [he] at hf; rw [hf] at hn; cases hn
          rw [h2 n hn]
          simp [lookupStr_setKey, hne]

theorem applyProps_strict_bad (reg : Registry) (helper : SerializationHelper) (target : Nat) :
    ∀ (fields : List (String × JsonValue)) (o : Object),
      (∀ kv ∈ fields, kv.1 = discriminatorKey ∨ findSettable reg target kv.1 = none ∨
        ∃ p v, findSettable reg target kv.1 = some p ∧
          helper.deserializeValue p.typeId kv.2 = some v) →
      (∃ kv ∈ fields, kv.1 ≠ discriminatorKey ∧ findSettable reg target kv.1 = none) →
      applyProps reg ⟨true⟩ helper target o fields = .error .unknownProperty := by
  intro fields
  induction fields with
  | nil =>
    intro o _ hbad
    obtain ⟨kv, hm, _⟩ := hbad
    simp at hm
  | cons kv rest ih =>
    intro o hgood hbad
    obtain ⟨k, jv⟩ := kv
    by_cases hd : k = discriminatorKey
    · have hbad2 : ∃ kv2 ∈ rest, kv2.1 ≠ discriminatorKey ∧
          findSettable reg target kv2.1 = none := by
        obtain ⟨kv2, hm, hne, hn⟩ := hbad
        rcases List.mem_cons.mp hm with he | hm2
        · exact absurd (by rw [he]; exact hd) hne
        · exact ⟨kv2, hm2, hne, hn⟩
      have := ih o (fun kv2 hm => hgood kv2 (List.mem_cons_of_mem _ hm)) hbad2
      simp [applyProps, hd, this]
    · rcases hf : findSettable reg target k with _ | p
      · simp [applyProps, hd, hf]
      · rcases hgood (k, jv) (List.mem_cons_self _ _) with hdk | hnone | ⟨p0, v, hp0, hv⟩
        · exact absurd hdk hd
        · rw [hf] at hnone; cases hnone
        · rw [hf] at hp0
          cases hp0
          have hbad2 : ∃ kv2 ∈ rest, kv2.1 ≠ discriminatorKey ∧
              findSettable reg target kv2.1 = none := by
            obtain ⟨kv2, hm, hne, hn⟩ := hbad
            rcases List.mem_cons.mp hm with he | hm2
            · rw [he] at hn
              simp only at hn
              rw [hf] at hn
              cases hn
            · exact ⟨kv2, hm2, hne, hn⟩
          have := ih { o with props := setKey o.props k v }
            (fun kv2 hm => hgood kv2 (List.mem_cons_of_mem _ hm)) hbad2
          simp [applyProps, hd, hf, hv, this]

/-! ### Lookup membership lemmas -/

theorem lookupNat_eq_none_iff {α : Type} (l : List (Nat × α)) (n : Nat) :
    lookupNat l n = none ↔ n ∉ l.map Prod.fst := by
  induction l with
  | nil => simp [lookupNat]
  | cons kv rest ih =>
    obtain ⟨k, v⟩ := kv
    by_cases h : k = n
    · subst h
      simp [lookupNat]
    · simp only [lookupNat, h, if_false, List.map_cons, List.mem_cons, ih]
      constructor
      · intro hn
        rintro (he | hm)
        · exact h he.symm
        · exact hn hm
      · intro hor
        exact fun hm => hor (Or.inr hm)

theorem idByNameIn_mem :
    ∀ (l : List (Nat × String)) (s : String) (u : Nat),
      idByName.idByNameIn l s = some u → u ∈ l.map Prod.fst := by
  intro l
  induction l with
  | nil => intro s u h; simp [idByName.idByNameIn] at h
  | cons kv rest ih =>
    intro s u h
    obtain ⟨k, n⟩ := kv
    by_cases hn : n = s
    · simp only [idByName.idByNameIn, hn, if_true, Option.some.injEq] at h
      simp [← h]
    · simp only [idByName.idByNameIn, hn, if_false] at h
      simp [ih s u h]

/-! ### The wrapper step stays inside the registered ids -/

theorem classify_empty (reg : Registry) : classify reg "" = .notAWrapper := by
  have h1 : matchWrapperPattern sharedTypeRegex "" = none := by decide
  have h2 : matchWrapperPattern trackingTypeRegex "" = none := by decide
  simp [classify, h1, h2]

theorem classify_inner_mem (reg : Registry) (nm : String) (u : Nat) :
    (classify reg nm = .sharedOwnership u ∨ classify reg nm = .trackingReference u) →
    u ∈ keysOf reg := by
  intro h
  rcases h1 : matchWrapperPattern sharedTypeRegex nm with _ | inner
  · rcases h2 : matchWrapperPattern trackingTypeRegex nm with _ | inner
    · simp [classify, h1, h2] at h
    · rcases h3 : idByName reg inner with _ | u0
      · simp [classify, h1, h2, h3] at h
      · simp only [classify, h1, h2, h3] at h
        rcases h with h | h
        · cases h
        · cases h
          exact idByNameIn_mem _ _ _ h3
  · rcases h3 : idByName reg inner with _ | u0
    · simp [classify, h1, h3] at h
    · simp only [classify, h1, h3] at h
      rcases h with h | h
      · cases h
        exact idByNameIn_mem _ _ _ h3
      · cases h

theorem wstep_mem (reg : Registry) (t u : Nat) (h : wstep reg t = some u) :
    t ∈ keysOf reg ∧ u ∈ keysOf reg := by
  have hcl : classifyId reg t = .sharedOwnership u ∨ classifyId reg t = .trackingReference u := by
    unfold wstep at h
    rcases hc : classifyId reg t with _ | v | v <;> rw [hc] at h
    · cases h
    · injection h with he
      exact Or.inl (by rw [he])
    · injection h with he
      exact Or.inr (by rw [he])
  constructor
  · by_contra hmem
    have hl : lookupNat reg.names t = none :=
      (lookupNat_eq_none_iff _ _).mpr (by simpa [keysOf] using hmem)
    have hna : classifyId reg t = .notAWrapper := by
      simp [classifyId, typeNameOf, hl, classify_empty]
    rcases hcl with hc | hc <;> rw [hna] at hc <;> cases hc
  · exact classify_inner_mem reg _ u hcl

/-! ### Chains of the recursive convertibility test -/

theorem convChain_head_eq (reg : Registry) {t a : Nat} {r : List Nat}
    (h : ConvChain reg t (a :: r)) : a = t := by
  cases r with
  | nil => exact h.1
  | cons b rx => exact h.1

theorem convChain_head (reg : Registry) (t : Nat) (l : List Nat) (h : ConvChain reg t l) :
    ∃ r, l = t :: r := by
  cases l with
  | nil => simp [ConvChain] at h
  | cons a r => exact ⟨r, by rw [convChain_head_eq reg h]⟩

theorem convChain_exists (reg : Registry) (t : Nat) (h : Convertible reg t) :
    ∃ l, ConvChain reg t l := by
  induction h with
  | direct t0 ho => exact ⟨[t0], by simp [ConvChain, ho]⟩
  | viaShared t0 u hc hu ih =>
    by_cases ho : isObjType reg t0 = true
    · exact ⟨[t0], by simp [ConvChain, ho]⟩
    · obtain ⟨l, hl⟩ := ih
      obtain ⟨r, rfl⟩ := convChain_head reg u l hl
      refine ⟨t0 :: u :: r, ?_⟩
      simp only [ConvChain]
      exact ⟨by trivial, by simpa using ho, by simp [wstep, hc], hl⟩
  | viaTracking t0 u hc hu ih =>
    by_cases ho : isObjType reg t0 = true
    · exact ⟨[t0], by simp [ConvChain, ho]⟩
    · obtain ⟨l, hl⟩ := ih
      obtain ⟨r, rfl⟩ := convChain_head reg u l hl
      refine ⟨t0 :: u :: r, ?_⟩
      simp only [ConvChain]
      exact ⟨by trivial, by simpa using ho, by simp [wstep, hc], hl⟩

theorem convChain_uniq (reg : Registry) :
    ∀ (l₁ : List Nat) (t : Nat), ConvChain reg t l₁ →
      ∀ l₂, ConvChain reg t l₂ → l₁ = l₂ := by
  intro l₁
  induction l₁ with
  | nil => intro t h l₂ h₂; simp [ConvChain] at h
  | cons a r₁ ih =>
    intro t h l₂ h₂
    have ha : a = t := convChain_head_eq reg h
    subst ha
    obtain ⟨r₂, rfl⟩ := convChain_head reg a l₂ h₂
    cases r₁ with
    | nil =>
      cases r₂ with
      | nil => rfl
      | cons d r₂x =>
        obtain ⟨-, ho⟩ := h
        obtain ⟨-, ho2, -, -⟩ := h₂
        rw [ho] at ho2
        cases ho2
    | cons b r₁x =>
      cases r₂ with
      | nil =>
        obtain ⟨-, ho2⟩ := h₂
        obtain ⟨-, ho, -, -⟩ := h
        rw [ho] at ho2
        cases ho2
      | cons d r₂x =>
        obtain ⟨-, ho, hw, hch⟩ := h
        obtain ⟨-, -, hw2, hch2⟩ := h₂
        rw [hw] at hw2
        injection hw2 with hbd
        subst hbd
        rw [ih b hch (b :: r₂x) hch2]

theorem convChain_tail (reg : Registry) :
    ∀ (l : List Nat) (t : Nat), ConvChain reg t l →
      ∀ x ∈ l.tail, ∃ lx, ConvChain reg x lx ∧ lx.length < l.length := by
  intro l
  induction l with
  | nil => intro t h; simp [ConvChain] at h
  | cons a r ih =>
    intro t h x hx
    simp only [List.tail_cons] at hx
    cases r with
    | nil => simp at hx
    | cons b rx =>
      obtain ⟨ha, ho, hw, hch⟩ := h
      rcases List.mem_cons.mp hx with he | hx2
      · subst he
        exact ⟨x :: rx, hch, by simp⟩
      · obtain ⟨lx, h1, h2⟩ := ih b hch x (by simpa using hx2)
        exact ⟨lx, h1, Nat.lt_trans h2 (by simp)⟩

theorem convChain_nodup (reg : Registry) :
    ∀ (l : List Nat) (t : Nat), ConvChain reg t l → l.Nodup := by
  intro l
  induction l with
  | nil => intro t h; simp [ConvChain] at h
  | cons a r ih =>
    intro t h
    have ha : a = t := convChain_head_eq reg h
    subst ha
    have hr : r.Nodup := by
      cases r with
      | nil => simp
      | cons b rx =>
        obtain ⟨-, -, -, hch⟩ := h
        exact ih b hch
    refine List.nodup_cons.mpr ⟨?_, hr⟩
    intro hmem
    obtain ⟨lx, h1, h2⟩ := convChain_tail reg (a :: r) a h a (by simpa using hmem)
    have := convChain_uniq reg lx a h1 (a :: r) h
    rw [this] at h2
    exact absurd h2 (lt_irrefl _)

theorem convChain_sub_keys (reg : Registry) :
    ∀ (l : List Nat) (t : Nat), ConvChain reg t l → 2 ≤ l.length →
      ∀ x ∈ l, x ∈ keysOf reg := by
  intro l
  induction l with
  | nil => intro t h; simp [ConvChain] at h
  | cons a r ih =>
    intro t h hlen x hx
    cases r with
    | nil => simp at hlen
    | cons b rx =>
      obtain ⟨ha, ho, hw, hch⟩ := h
      have hmem := wstep_mem reg a b hw
      rcases List.mem_cons.mp hx with he | hx2
      · subst he
        exact hmem.1
      · cases rx with
        | nil =>
          have hxb : x = b := by simpa using hx2
          subst hxb
          exact hmem.2
        | cons c rxx =>
          exact ih b hch (by simp) x hx2

theorem convChain_length_le (reg : Registry) (l : List Nat) (t : Nat)
    (h : ConvChain reg t l) : l.length ≤ defaultFuel reg := by
  cases l with
  | nil => simp [ConvChain] at h
  | cons a r =>
    cases r with
    | nil => simp [defaultFuel]
    | cons b rx =>
      have hnd : (a :: b :: rx).Nodup := convChain_nodup reg _ t h
      have hsub : a :: b :: rx ⊆ (keysOf reg).dedup := fun x hx =>
        List.mem_dedup.mpr (convChain_sub_keys reg _ t h (by simp) x hx)
      have hle := (List.subperm_of_subset hnd hsub).length_le
      simp only [defaultFuel]
      omega

/-! ### Soundness and completeness of the fuelled test -/

theorem canConvertAux_sound (reg : Registry) :
    ∀ (f t : Nat) (vis : List Nat), canConvertAux reg f t vis = true → Convertible reg t := by
  intro f
  induction f with
  | zero => intro t vis h; simp [canConvertAux] at h
  | succ f0 ih =>
    intro t vis h
    simp only [canConvertAux] at h
    by_cases hv : t ∈ vis
    · simp [hv] at h
    · rw [if_neg hv] at h
      by_cases ho : isObjType reg t = true
      · exact Convertible.direct t ho
      · rw [if_neg ho] at h
        rcases hw : wstep reg t with _ | u <;> rw [hw] at h
        · cases h
        · have hu : Convertible reg u := ih u (t :: vis) h
          unfold wstep at hw
          rcases hc : classifyId reg t with _ | v | v <;> rw [hc] at hw
          · cases hw
          · injection hw with he
            subst he
            exact Convertible.viaShared _ _ hc hu
          · injection hw with he
            subst he
            exact Convertible.viaTracking _ _ hc hu

theorem canConvertAux_of_chain (reg : Registry) :
    ∀ (l : List Nat) (t : Nat) (vis : List Nat) (f : Nat),
      ConvChain reg t l → (∀ x ∈ l, x ∉ vis) → l.length ≤ f →
      canConvertAux reg f t vis = true := by
  intro l
  induction l with
  | nil => intro t vis f h; simp [ConvChain] at h
  | cons a r ih =>
    intro t vis f h hdis hlen
    have ha : a = t := convChain_head_eq reg h
    subst ha
    obtain ⟨f0, rfl⟩ : ∃ f0, f = f0 + 1 := by
      cases f with
      | zero => simp at hlen
      | succ f0 => exact ⟨f0, rfl⟩
    have hnv : a ∉ vis := hdis a (List.mem_cons_self _ _)
    cases r with
    | nil =>
      obtain ⟨-, ho⟩ := h
      simp [canConvertAux, hnv, ho]
    | cons b rx =>
      have hnd := convChain_nodup reg (a :: b :: rx) a h
      obtain ⟨-, ho, hw, hch⟩ := h
      have hanotr : a ∉ b :: rx := (List.nodup_cons.mp hnd).1
      have hdis2 : ∀ x ∈ b :: rx, x ∉ a :: vis := by
        intro x hx
        simp only [List.mem_cons, not_or]
        exact ⟨fun he => hanotr (he ▸ hx), hdis x (List.mem_cons_of_mem _ hx)⟩
      have hlen2 : (b :: rx).length ≤ f0 := by
        simp only [List.length_cons] at hlen ⊢
        omega
      have hrec := ih b (a :: vis) f0 hch hdis2 hlen2
      simp [canConvertAux, hnv, ho, hw, hrec]

theorem canConvert_complete (reg : Registry) (t : Nat) (f : Nat)
    (hf : defaultFuel reg ≤ f) (h : Convertible reg t) :
    canConvertAux reg f t [] = true := by
  obtain ⟨l, hl⟩ := convChain_exists reg t h
  exact canConvertAux_of_chain reg l t [] f hl (by simp)
    (le_trans (convChain_length_le reg l t hl) hf)

/-! ### Claim theorems -/

/-- C2: for every runtime type id t, canConvert is true exactly when t
is directly known to the metadata oracle as an object type, or its name
classifies as a shared-ownership or tracking wrapper whose inner type
is itself convertible, the test applied recursively through nested
wrappers (the inductive predicate Convertible is the spec wording of
that recursion). -/
theorem canConvert_iff_convertible (reg : Registry) (t : Nat) :
    canConvert reg t = true ↔ Convertible reg t :=
  ⟨fun h => canConvertAux_sound reg _ t [] h,
   fun h => canConvert_complete reg t (defaultFuel reg) (le_refl _) h⟩

/-- C9: canConvert terminates on every input: the visited-set bounds the
recursion depth by the number of distinct registered type ids, so any
fuel beyond that bound computes the same answer — including on a
pathological self-referential wrapper chain. -/
theorem canConvert_fuel_stable (reg : Registry) (t f : Nat)
    (hf : defaultFuel reg ≤ f) :
    canConvertAux reg f t [] = canConvert reg t := by
  unfold canConvert
  by_cases h : Convertible reg t
  · rw [canConvert_complete reg t f hf h,
        canConvert_complete reg t (defaultFuel reg) (le_refl _) h]
  · cases hb : canConvertAux reg f t [] with
    | true => exact absurd (canConvertAux_sound reg f t [] hb) h
    | false =>
      cases hb2 : canConvertAux reg (defaultFuel reg) t [] with
      | true => exact absurd (canConvertAux_sound reg _ t [] hb2) h
      | false => rfl

/-- Witness for C9: the fuel-stability theorem applied to the
pathological self-referential wrapper registry, with a much larger
fuel than the bound. -/
theorem canConvert_fuel_stable_witness :
    defaultFuel regLoop ≤ 50 ∧ canConvertAux regLoop 50 1 [] = canConvert regLoop 1 :=
  ⟨by decide, canConvert_fuel_stable regLoop 1 50 (by decide)⟩

/-- C10: the declared shape set is a single constant list holding only
the object kind and takes no type-id argument, so it is identical for
every runtime type and call; it does not contain null, yet deserialize
accepts null for a wrapper-classified id — the wrapper-specific null
acceptance is decided only inside deserialize. -/
theorem jsonTypes_constant_shape_set :
    jsonTypes = [JsonKind.obj] ∧ JsonKind.null ∉ jsonTypes ∧
      classifyId regW 5 = .sharedOwnership 6 ∧
      deserialize regW cfgLoose 5 .null none intHelper = .ok (.shared none) :=
  ⟨rfl, by decide, rfl, rfl⟩

/-- C4: for a wrapper-classified type over an inner type, serializing
the empty wrapper yields JSON null, and deserializing null yields the
empty wrapper of the matching kind, for both wrapper kinds. -/
theorem wrapper_null_roundtrip (reg : Registry) (cfg : Config)
    (helper : SerializationHelper) (parentCtx : Option Nat) (t i : Nat) :
    (classifyId reg t = .sharedOwnership i →
      serialize reg t (.shared none) helper = .ok .null ∧
      deserialize reg cfg t .null parentCtx helper = .ok (.shared none)) ∧
    (classifyId reg t = .trackingReference i →
      serialize reg t (.tracking none) helper = .ok .null ∧
      deserialize reg cfg t .null parentCtx helper = .ok (.tracking none)) := by
  constructor
  · intro h
    constructor
    · simp [serialize, unwrap, h]
    · simp [deserialize, deserializeCore, h]
  · intro h
    constructor
    · simp [serialize, unwrap, h]
    · simp [deserialize, deserializeCore, h]

/-- Witness for C4: the empty shared wrapper (id 5) and the empty
tracking wrapper (id 7) of the concrete registry. -/
theorem wrapper_null_roundtrip_witness :
    (serialize regW 5 (.shared none) intHelper = .ok .null ∧
      deserialize regW cfgLoose 5 .null none intHelper = .ok (.shared none)) ∧
    (serialize regW 7 (.tracking none) intHelper = .ok .null ∧
      deserialize regW cfgLoose 7 .null none intHelper = .ok (.tracking none)) :=
  ⟨(wrapper_null_roundtrip regW cfgLoose intHelper none 5 6).1 (by rfl),
   (wrapper_null_roundtrip regW cfgLoose intHelper none 7 6).2 (by rfl)⟩

/-- C5: for a convertible non-wrapper type, deserializing any JSON value
that is not an object — null, booleans, numbers, strings, arrays —
fails with shapeMismatch and constructs no instance (empty construction
trace). -/
theorem deserialize_nonobject_shape_mismatch (reg : Registry) (cfg : Config)
    (helper : SerializationHelper) (parentCtx : Option Nat) (t : Nat) (json : JsonValue)
    (_hconv : canConvert reg t = true)
    (hw : classifyId reg t = .notAWrapper)
    (hobj : isJsonObj json = false) :
    deserializeCore reg cfg t json parentCtx helper = (.error .shapeMismatch, []) := by
  cases json with
  | null => simp [deserializeCore, hw]
  | obj fields => simp [isJsonObj] at hobj
  | bool b => rfl
  | num n => rfl
  | str s => rfl
  | arr xs => rfl

/-- Witness for C5: a JSON number fed to the plain object type Foo. -/
theorem deserialize_nonobject_shape_mismatch_witness :
    canConvert regW 6 = true ∧ classifyId regW 6 = .notAWrapper ∧
      isJsonObj (JsonValue.num 3) = false ∧
      deserializeCore regW cfgLoose 6 (JsonValue.num 3) none intHelper =
        (.error .shapeMismatch, []) :=
  ⟨by decide, by rfl, rfl,
    deserialize_nonobject_shape_mismatch regW cfgLoose intHelper none 6 (JsonValue.num 3)
      (by decide) (by rfl) rfl⟩

/-- C1: a JSON object whose discriminator key names a type that is
absent from the registry, or whose ancestry does not include the static
target type, makes deserialize fail with unknownDiscriminatorType, and
no instance of any type is constructed (empty construction trace). -/
theorem deserialize_bad_discriminator_fails (reg : Registry) (cfg : Config)
    (helper : SerializationHelper) (parentCtx : Option Nat) (B : Nat)
    (fields : List (String × JsonValue)) (s : String)
    (hdisc : lookupStr fields discriminatorKey = some (.str s))
    (hbad : idByMetaName reg s = none ∨
      ∃ d, idByMetaName reg s = some d ∧ inAncestry reg (staticTarget reg B) d = false) :
    deserializeCore reg cfg B (.obj fields) parentCtx helper =
      (.error .unknownDiscriminatorType, []) := by
  have hres : resolveTarget reg (staticTarget reg B) (lookupStr fields discriminatorKey)
      = none := by
    rw [hdisc]
    rcases hbad with hnone | ⟨d, hd, hanc⟩
    · simp [resolveTarget, hnone]
    · simp [resolveTarget, hd, hanc]
  simp [deserializeCore, hres]

/-- Witness for C1: through static type B (id 10), a discriminator
naming the unrelated registered type Evil (id 12) is rejected before
any construction. -/
theorem deserialize_bad_discriminator_fails_witness :
    lookupStr [(discriminatorKey, JsonValue.str "Evil")] discriminatorKey =
        some (JsonValue.str "Evil") ∧
      deserializeCore regP cfgLoose 10 (.obj [(discriminatorKey, JsonValue.str "Evil")])
        none intHelper = (.error .unknownDiscriminatorType, []) :=
  ⟨rfl, deserialize_bad_discriminator_fails regP cfgLoose intHelper none 10 _ "Evil" rfl
    (Or.inr ⟨12, by rfl, by rfl⟩)⟩

/-- C8: a JSON key matching no settable property on the target type's
metadata chain is ignored in non-strict mode — deserialize still
succeeds and the key is never assigned — and makes deserialize fail
with unknownProperty in strict mode. -/
theorem unknown_key_policy (reg : Registry) (helper : SerializationHelper)
    (parentCtx : Option Nat) (t : Nat) (fields : List (String × JsonValue))
    (rec : MetaRecord)
    (hw : classifyId reg t = .notAWrapper)
    (hrec : metadataFor reg t = some rec)
    (hcon : rec.constructible = true)
    (hnd : discriminatorKey ∉ fields.map Prod.fst)
    (hkeys : ∀ kv ∈ fields, findSettable reg t kv.1 = none ∨
      ∃ p v, findSettable reg t kv.1 = some p ∧
        helper.deserializeValue p.typeId kv.2 = some v)
    (hbad : ∃ kv ∈ fields, findSettable reg t kv.1 = none) :
    (∃ o, deserializeCore reg ⟨false⟩ t (.obj fields) parentCtx helper =
        (.ok (.objPtr (some o)), [t]) ∧
      ∀ kv ∈ fields, findSettable reg t kv.1 = none → lookupStr o.props kv.1 = none) ∧
    deserializeCore reg ⟨true⟩ t (.obj fields) parentCtx helper =
      (.error .unknownProperty, [t]) := by
  have hlook : lookupStr fields discriminatorKey = none :=
    (lookupStr_eq_none_iff _ _).mpr hnd
  have hst : staticTarget reg t = t := by simp [staticTarget, hw]
  have hres : resolveTarget reg (staticTarget reg t) (lookupStr fields discriminatorKey)
      = some t := by rw [hlook, hst]; rfl
  have hcons : construct reg t parentCtx = some { typeId := t, props := [] } := by
    simp [construct, hrec, hcon]
  have hkeys3 : ∀ kv ∈ fields, kv.1 = discriminatorKey ∨ findSettable reg t kv.1 = none ∨
      ∃ p v, findSettable reg t kv.1 = some p ∧
        helper.deserializeValue p.typeId kv.2 = some v :=
    fun kv hm => Or.inr (hkeys kv hm)
  constructor
  · obtain ⟨o, h1, h2⟩ :=
      applyProps_nonstrict reg helper t fields { typeId := t, props := [] } hkeys3
    refine ⟨o, ?_, ?_⟩
    · simp [deserializeCore, hres, hcons, h1, rewrap, hw]
    · intro kv hm hn
      rw [h2 kv.1 hn]
      rfl
  · have hbad2 : ∃ kv ∈ fields, kv.1 ≠ discriminatorKey ∧
        findSettable reg t kv.1 = none := by
      obtain ⟨kv, hm, hn⟩ := hbad
      refine ⟨kv, hm, fun he => hnd ?_, hn⟩
      rw [← he]
      exact List.mem_map_of_mem _ hm
    have hstrict := applyProps_strict_bad reg helper t fields { typeId := t, props := [] }
      hkeys3 hbad2
    simp [deserializeCore, hres, hcons, hstrict]

/-- Witness for C8: the spec's example — a type with only knownProp fed
a JSON object also holding a bogus key. -/
theorem unknown_key_policy_witness :
    (∃ o, deserializeCore regW ⟨false⟩ 6
        (.obj [("knownProp", JsonValue.num 1), ("bogus", JsonValue.num 2)]) none intHelper =
        (.ok (.objPtr (some o)), [6]) ∧
      ∀ kv ∈ [("knownProp", JsonValue.num 1), ("bogus", JsonValue.num 2)],
        findSettable regW 6 kv.1 = none → lookupStr o.props kv.1 = none) ∧
    deserializeCore regW ⟨true⟩ 6
      (.obj [("knownProp", JsonValue.num 1), ("bogus", JsonValue.num 2)]) none intHelper =
      (.error .unknownProperty, [6]) :=
  unknown_key_policy regW intHelper none 6 _ _ (by rfl) (by rfl) rfl (by decide)
    (by
      intro kv hm
      rcases List.mem_cons.mp hm with he | hm2
      · subst he
        exact Or.inr ⟨{ name := "knownProp", typeId := 100, readable := true, settable := true },
          .vInt 1, by rfl, by rfl⟩
      · have he2 : kv = ("bogus", JsonValue.num 2) := by simpa using hm2
        subst he2
        exact Or.inl (by rfl))
    ⟨("bogus", JsonValue.num 2), by simp, by rfl⟩

/-- C6: serialization is deterministic — two serialize calls on the
same unchanged object produce the same JSON object, and its key order
is the discriminator (when present) followed by the property names in
the derived-first walk order (serKeyOrder). -/
theorem serialize_deterministic_key_order (reg : Registry) (t : Nat) (box : Boxed)
    (helper : SerializationHelper) (j1 j2 : JsonValue) (fields : List (String × JsonValue))
    (h1 : serialize reg t box helper = .ok j1)
    (h2 : serialize reg t box helper = .ok j2)
    (hobj : j1 = .obj fields) :
    j2 = .obj fields ∧ fields.map Prod.fst = serKeyOrder reg t box := by
  have hj : (Except.ok j1 : Except ConvError JsonValue) = .ok j2 := by rw [← h1, ← h2]
  have hj2 : j1 = j2 := by injection hj
  subst hobj
  refine ⟨hj2.symm, ?_⟩
  rcases hu : unwrap reg t box with e | oo
  · simp [serialize, hu] at h1
  · rcases oo with _ | o
    · simp [serialize, hu] at h1
    · simp only [serialize, hu] at h1
      rcases hwk : walkFields helper o
          (serProps reg (resolveForSerialize reg (staticTarget reg t) o)) with e | fs
      · simp [hwk] at h1
      · simp only [hwk] at h1
        by_cases hr : resolveForSerialize reg (staticTarget reg t) o = staticTarget reg t
        · rw [if_pos hr] at h1
          injection h1 with h1a
          injection h1a with h1b
          subst h1b
          rw [hr] at hwk
          simp only [serKeyOrder, hu, hr, if_pos]
          exact walkFields_keys helper o _ fs hwk
        · rw [if_neg hr] at h1
          injection h1 with h1a
          injection h1a with h1b
          subst h1b
          simp only [serKeyOrder, hu, if_neg hr, List.map_cons]
          rw [walkFields_keys helper o _ fs hwk]

/-- Witness for C6: serializing the Derived instance through static
type Base, the keys are the discriminator first, then p and q. -/
theorem serialize_deterministic_key_order_witness :
    (JsonValue.obj [(discriminatorKey, JsonValue.str "Derived"),
        ("p", JsonValue.num 7), ("q", JsonValue.num 8)]) =
      .obj [(discriminatorKey, JsonValue.str "Derived"),
        ("p", JsonValue.num 7), ("q", JsonValue.num 8)] ∧
    ([(discriminatorKey, JsonValue.str "Derived"), ("p", JsonValue.num 7),
        ("q", JsonValue.num 8)].map Prod.fst : List String) =
      serKeyOrder regC 20 (.objPtr (some cObj)) :=
  serialize_deterministic_key_order regC 20 (.objPtr (some cObj)) intHelper _ _ _
    rfl rfl rfl

/-- C7: the serialize walk is derived-first with first-seen-wins: the
non-discriminator fields' keys are exactly the first-occurrence
readable property names of the resolved record's derived-first chain,
each key appears exactly once, and the value written for a key comes
from the most derived (first in the chain) readable property of that
name. -/
theorem serialize_derived_first_unique_keys (reg : Registry) (t : Nat) (box : Boxed)
    (helper : SerializationHelper) (fields : List (String × JsonValue))
    (h : serialize reg t box helper = .ok (.obj fields)) :
    ∃ o fs, unwrap reg t box = .ok (some o) ∧
      (fields = fs ∨ ∃ dv, fields = (discriminatorKey, dv) :: fs) ∧
      (fs.map Prod.fst).Nodup ∧
      fs.map Prod.fst =
        (serProps reg (resolveForSerialize reg (staticTarget reg t) o)).map PropMeta.name ∧
      ∀ n jv, lookupStr fs n = some jv →
        ∃ p, findNamed ((chainProps reg
              (resolveForSerialize reg (staticTarget reg t) o)).filter
            PropMeta.readable) n = some p ∧
          helper.serializeValue p.typeId (getProp o p.name) = some jv := by
  rcases hu : unwrap reg t box with e | oo
  · simp [serialize, hu] at h
  · rcases oo with _ | o
    · simp [serialize, hu] at h
    · simp only [serialize, hu] at h
      rcases hwk : walkFields helper o
          (serProps reg (resolveForSerialize reg (staticTarget reg t) o)) with e | fs
      · simp [hwk] at h
      · simp only [hwk] at h
        have hkeys := walkFields_keys helper o _ fs hwk
        have hnodup : (fs.map Prod.fst).Nodup := by
          rw [hkeys]
          exact firstOccAux_nodup _ _
        have hval : ∀ n jv, lookupStr fs n = some jv →
            ∃ p, findNamed ((chainProps reg
                  (resolveForSerialize reg (staticTarget reg t) o)).filter
                PropMeta.readable) n = some p ∧
              helper.serializeValue p.typeId (getProp o p.name) = some jv := by
          intro n jv hl
          obtain ⟨p, hfind, hser⟩ := walkFields_lookup helper o _ fs hwk n jv hl
          have hpn : p.name = n := findNamed_name _ _ _ hfind
          have hpm : p ∈ serProps reg (resolveForSerialize reg (staticTarget reg t) o) :=
            findNamed_mem _ _ _ hfind
          refine ⟨p, ?_, hser⟩
          rw [← hpn]
          exact firstOccAux_find _ _ _ hpm
        by_cases hr : resolveForSerialize reg (staticTarget reg t) o = staticTarget reg t
        · rw [if_pos hr] at h
          injection h with ha
          injection ha with hb
          exact ⟨o, fields, rfl, Or.inl rfl, hb ▸ hnodup, hb ▸ hkeys, hb ▸ hval⟩
        · rw [if_neg hr] at h
          injection h with ha
          injection ha with hb
          refine ⟨o, fs, rfl, Or.inr ⟨_, hb.symm⟩, hnodup, hkeys, hval⟩

/-- Witness for C7: the name collision registry — Derived redeclares p,
so p is written once, from the Derived record. -/
theorem serialize_derived_first_unique_keys_witness :
    ∃ o fs, unwrap regC 20 (.objPtr (some cObj)) = .ok (some o) ∧
      ([(discriminatorKey, JsonValue.str "Derived"), ("p", JsonValue.num 7),
          ("q", JsonValue.num 8)] = fs ∨
        ∃ dv, [(discriminatorKey, JsonValue.str "Derived"), ("p", JsonValue.num 7),
          ("q", JsonValue.num 8)] = (discriminatorKey, dv) :: fs) ∧
      (fs.map Prod.fst).Nodup ∧
      fs.map Prod.fst =
        (serProps regC (resolveForSerialize regC (staticTarget regC 20) o)).map
          PropMeta.name ∧
      ∀ n jv, lookupStr fs n = some jv →
        ∃ p, findNamed ((chainProps regC
              (resolveForSerialize regC (staticTarget regC 20) o)).filter
            PropMeta.readable) n = some p ∧
          intHelper.serializeValue p.typeId (getProp o p.name) = some jv :=
  serialize_derived_first_unique_keys regC 20 (.objPtr (some cObj)) intHelper
    [(discriminatorKey, JsonValue.str "Derived"), ("p", JsonValue.num 7),
      ("q", JsonValue.num 8)] rfl

theorem roundTrips_isSome (helper : SerializationHelper) (tid : Nat) (v : Value)
    (h : roundTrips helper tid v) : (helper.serializeValue tid v).isSome := by
  unfold roundTrips at h
  rcases hs : helper.serializeValue tid v with _ | jv
  · rw [hs] at h
    exact h.elim
  · simp

theorem roundTrips_deser (helper : SerializationHelper) (tid : Nat) (v : Value)
    (jv : JsonValue) (h : roundTrips helper tid v)
    (hs : helper.serializeValue tid v = some jv) :
    helper.deserializeValue tid jv = some v := by
  unfold roundTrips at h
  rw [hs] at h
  exact h

/-- C3: for a reflectable non-wrapper type whose record is final (so no
polymorphic descendant is ever chosen) and a valid instance whose
property values round-trip through the helper, deserializing the
serialization succeeds and yields an object that agrees with the
original on every property of the metadata chain, constructing exactly
one instance. -/
theorem roundtrip_final_type (reg : Registry) (cfg : Config)
    (helper : SerializationHelper) (parentCtx : Option Nat) (t : Nat)
    (rec : MetaRecord) (x : Object)
    (hw : classifyId reg t = .notAWrapper)
    (hrec : metadataFor reg t = some rec)
    (hfinal : rec.isPoly = false)
    (hcon : rec.constructible = true)
    (hprops : ∀ p ∈ chainProps reg t, p.readable = true ∧ p.settable = true)
    (hdisc : discriminatorKey ∉ (chainProps reg t).map PropMeta.name)
    (hrt : ∀ p ∈ chainProps reg t, roundTrips helper p.typeId (getProp x p.name)) :
    ∃ j o, serialize reg t (.objPtr (some x)) helper = .ok j ∧
      deserializeCore reg cfg t j parentCtx helper = (.ok (.objPtr (some o)), [t]) ∧
      ∀ p ∈ chainProps reg t, getProp o p.name = getProp x p.name := by
  have hst : staticTarget reg t = t := by simp [staticTarget, hw]
  have hunwrap : unwrap reg t (.objPtr (some x)) = .ok (some x) := by simp [unwrap, hw]
  have hrid : resolveForSerialize reg t x = t := by simp [resolveForSerialize, hrec, hfinal]
  have hfilter : (chainProps reg t).filter PropMeta.readable = chainProps reg t :=
    List.filter_eq_self.mpr fun p hp => (hprops p hp).1
  have hsp : serProps reg t = firstOccAux (chainProps reg t) [] := by
    rw [serProps, hfilter]
  have hsub : ∀ p ∈ serProps reg t, p ∈ chainProps reg t := by
    intro p hp
    rw [hsp] at hp
    exact firstOccAux_subset _ _ p hp
  have hfindSet : ∀ n, findSettable reg t n = findNamed (chainProps reg t) n :=
    fun n => findSettableIn_eq_findNamed _ (fun r hr => (hprops r hr).2) n
  obtain ⟨fs, hwk⟩ := walkFields_ok_of helper x (serProps reg t)
    (fun p hp => roundTrips_isSome helper _ _ (hrt p (hsub p hp)))
  have hser : serialize reg t (.objPtr (some x)) helper = .ok (.obj fs) := by
    simp [serialize, hunwrap, hst, hrid, hwk]
  have hkeys : fs.map Prod.fst = (serProps reg t).map PropMeta.name :=
    walkFields_keys helper x _ fs hwk
  have hnodup : (fs.map Prod.fst).Nodup := by
    rw [hkeys, hsp]
    exact firstOccAux_nodup _ _
  have hmemnames : ∀ n, n ∈ fs.map Prod.fst ↔ n ∈ (chainProps reg t).map PropMeta.name := by
    intro n
    rw [hkeys, hsp]
    rw [firstOccAux_mem_names]
    simp
  have hdisc2 : discriminatorKey ∉ fs.map Prod.fst := fun hm => hdisc ((hmemnames _).mp hm)
  have hlook : lookupStr fs discriminatorKey = none := (lookupStr_eq_none_iff _ _).mpr hdisc2
  have hres : resolveTarget reg (staticTarget reg t) (lookupStr fs discriminatorKey)
      = some t := by rw [hlook, hst]; rfl
  have hconstr : construct reg t parentCtx = some { typeId := t, props := [] } := by
    simp [construct, hrec, hcon]
  have hgood : ∀ kv ∈ fs, kv.1 = discriminatorKey ∨
      ∃ p v, findSettable reg t kv.1 = some p ∧
        helper.deserializeValue p.typeId kv.2 = some v := by
    intro kv hm
    obtain ⟨q, hq0, hq1, hq2⟩ := walkFields_mem helper x _ fs hwk kv hm
    have hqc : q ∈ chainProps reg t := hsub q hq0
    have hfind : findNamed (chainProps reg t) kv.1 = some q := by
      rw [← hq1]
      rw [hsp] at hq0
      exact firstOccAux_find _ _ _ hq0
    refine Or.inr ⟨q, getProp x q.name, ?_, ?_⟩
    · rw [hfindSet kv.1, hfind]
    · exact roundTrips_deser helper _ _ kv.2 (hrt q hqc) hq2
  obtain ⟨o, hap, hunch, hchar⟩ := applyProps_ok reg cfg helper t fs
    { typeId := t, props := [] } hgood
  have hdeser : deserializeCore reg cfg t (.obj fs) parentCtx helper =
      (.ok (.objPtr (some o)), [t]) := by
    simp [deserializeCore, hres, hconstr, hap, rewrap, hw]
  refine ⟨.obj fs, o, hser, hdeser, ?_⟩
  intro p hp
  have hnmem : p.name ∈ fs.map Prod.fst :=
    (hmemnames p.name).mpr (List.mem_map_of_mem _ hp)
  obtain ⟨jv, hjv⟩ := lookupStr_isSome_of_mem fs p.name hnmem
  have hne : p.name ≠ discriminatorKey := fun he => hdisc (he ▸ List.mem_map_of_mem _ hp)
  obtain ⟨q, v, hq1, hq2, hq3⟩ := hchar hnodup p.name jv hne hjv
  obtain ⟨q1, hq1f, hq1s⟩ := walkFields_lookup helper x _ fs hwk p.name jv hjv
  have hq1n : q1.name = p.name := findNamed_name _ _ _ hq1f
  have hq1m : q1 ∈ serProps reg t := findNamed_mem _ _ _ hq1f
  have hq1c : q1 ∈ chainProps reg t := hsub q1 hq1m
  have hfind1 : findNamed (chainProps reg t) p.name = some q1 := by
    rw [← hq1n]
    rw [hsp] at hq1m
    exact firstOccAux_find _ _ _ hq1m
  have hqq : q = q1 := by
    rw [hfindSet p.name, hfind1] at hq1
    injection hq1 with he
    exact he.symm
  subst hqq
  have hvv : v = getProp x q.name := by
    have := roundTrips_deser helper _ _ jv (hrt q hq1c) hq1s
    rw [this] at hq2
    injection hq2 with he
    exact he.symm
  rw [getProp, hq3]
  simp [hvv, hq1n]

/-- Witness for C3: the round trip of the concrete Foo instance. -/
theorem roundtrip_final_type_witness :
    ∃ j o, serialize regW 6 (.objPtr (some fooObj)) intHelper = .ok j ∧
      deserializeCore regW cfgLoose 6 j none intHelper = (.ok (.objPtr (some o)), [6]) ∧
      ∀ p ∈ chainProps regW 6, getProp o p.name = getProp fooObj p.name :=
  roundtrip_final_type regW cfgLoose intHelper none 6 _ fooObj (by rfl) (by rfl) rfl rfl
    (by decide) (by decide)
    (by
      intro p hp
      have hch : chainProps regW 6 =
          [{ name := "knownProp", typeId := 100, readable := true, settable := true }] := by rfl
      rw [hch] at hp
      simp at hp
      subst hp
      exact rfl)
